import Mathlib

/-!
Shallow embedding of the screenshot-editor backend data layer
(`db/tables.ts` and `src/actions/index.ts`).

The store is three tables held as lists of records.  Each Astro action is
embedded as a pure function taking the caller context (`Option User`, the
`locals.user` of the request), the parsed input, the values the real code
obtains nondeterministically (`crypto.randomUUID()` as `freshId`,
`new Date()` as `now`), and the store; it returns `Except ActionError`
of the response payload paired with the resulting store.  A thrown
`ActionError` leaves the store unchanged.  Zod input validation runs
before the handler, as `defineAction` does; a failed parse yields a
`BAD_REQUEST` error without invoking the handler.
-/

namespace ScreenshotEditor

/-- The authenticated user taken from request context; only `id` is used. -/
structure User where
  id : String
deriving Repr, DecidableEq

/-- A row of the `ScreenshotProjects` table (`db/tables.ts`). -/
structure Project where
  id : String
  userId : String
  title : Option String
  description : Option String
  sourceDevice : Option String
  sourceApp : Option String
  createdAt : Nat
  updatedAt : Nat
deriving Repr, DecidableEq

/-- A row of the `Screenshots` table (`db/tables.ts`). -/
structure Screenshot where
  id : String
  projectId : Option String
  userId : String
  originalImageUrl : String
  editedImageUrl : Option String
  width : Option Int
  height : Option Int
  createdAt : Nat
  updatedAt : Nat
deriving Repr, DecidableEq

/-- A row of the `ScreenshotEdits` table (`db/tables.ts`). -/
structure ScreenshotEdit where
  id : String
  screenshotId : String
  userId : String
  editType : Option String
  operationsJson : Option String
  resultImageUrl : Option String
  createdAt : Nat
deriving Repr, DecidableEq

/-- The relational store: the three tables. -/
structure Store where
  screenshotProjects : List Project
  screenshots : List Screenshot
  screenshotEdits : List ScreenshotEdit
deriving Repr, DecidableEq

/-- The empty store. -/
def Store.empty : Store := ⟨[], [], []⟩

/-- Machine-readable error codes raised by the action layer:
`UNAUTHORIZED` and `NOT_FOUND` from the handlers, `BAD_REQUEST` from
input validation. -/
inductive ErrorCode where
  | UNAUTHORIZED
  | NOT_FOUND
  | BAD_REQUEST
deriving Repr, DecidableEq

/-- An `ActionError`: code plus human message. -/
structure ActionError where
  code : ErrorCode
  message : String
deriving Repr, DecidableEq

/-- The error thrown by `requireUser` when no user is signed in. -/
def unauthorizedError : ActionError :=
  { code := .UNAUTHORIZED, message := "You must be signed in to perform this action." }

/-- The error thrown when a project lookup matches zero rows. -/
def projectNotFoundError : ActionError :=
  { code := .NOT_FOUND, message := "Project not found." }

/-- The error thrown when a screenshot lookup matches zero rows. -/
def screenshotNotFoundError : ActionError :=
  { code := .NOT_FOUND, message := "Screenshot not found." }

/-- The error produced when zod input validation rejects the input,
before the handler runs. -/
def validationFailedError : ActionError :=
  { code := .BAD_REQUEST, message := "Failed to validate: invalid input." }

/-- `requireUser(context)`: returns the current user or throws
`UNAUTHORIZED` when none is present. -/
def requireUser (ctx : Option User) : Except ActionError User :=
  match ctx with
  | none => .error unauthorizedError
  | some user => .ok user

/-- `getOwnedProject(projectId, userId)`: select from `ScreenshotProjects`
where `id = projectId AND userId = userId`, take the first row, throw
`NOT_FOUND` when there is none. -/
def getOwnedProject (s : Store) (projectId userId : String) : Except ActionError Project :=
  match (s.screenshotProjects.filter (fun p => p.id == projectId && p.userId == userId)).head? with
  | none => .error projectNotFoundError
  | some project => .ok project

/-- `getOwnedScreenshot(screenshotId, userId)`: select from `Screenshots`
where `id = screenshotId AND userId = userId`, take the first row, throw
`NOT_FOUND` when there is none. -/
def getOwnedScreenshot (s : Store) (screenshotId userId : String) : Except ActionError Screenshot :=
  match (s.screenshots.filter (fun sh => sh.id == screenshotId && sh.userId == userId)).head? with
  | none => .error screenshotNotFoundError
  | some shot => .ok shot

/-- JavaScript truthiness of an optional string, as used by
`if (input.projectId)`: `undefined` and the empty string are falsy. -/
def strTruthy : Option String → Bool
  | some str => !(str == "")
  | none => false

/-- The list-with-count payload `{ items, total }` of the list actions. -/
structure ListResult (α : Type) where
  items : List α
  total : Nat
deriving Repr, DecidableEq

/-! ### createProject -/

/-- Input of `createProject`: all fields optional strings. -/
structure CreateProjectInput where
  title : Option String
  description : Option String
  sourceDevice : Option String
  sourceApp : Option String
deriving Repr, DecidableEq

/-- `createProject`: requires a user, inserts a project owned by the
caller with generated id and `createdAt = updatedAt = now`, and returns
the inserted row.  Its zod schema (four optional strings) accepts every
structurally well-typed input, so no validation branch appears. -/
def createProject (ctx : Option User) (input : CreateProjectInput)
    (freshId : String) (now : Nat) (s : Store) :
    Except ActionError (Project × Store) :=
  match requireUser ctx with
  | .error e => .error e
  | .ok user =>
    let project : Project :=
      { id := freshId
        userId := user.id
        title := input.title
        description := input.description
        sourceDevice := input.sourceDevice
        sourceApp := input.sourceApp
        createdAt := now
        updatedAt := now }
    .ok (project, { s with screenshotProjects := s.screenshotProjects ++ [project] })

/-! ### updateProject -/

/-- Input of `updateProject`. -/
structure UpdateProjectInput where
  id : String
  title : Option String
  description : Option String
  sourceDevice : Option String
  sourceApp : Option String
deriving Repr, DecidableEq

/-- The zod schema of `updateProject`: `id` nonempty, and at least one of
the four updatable fields present (the `.refine`). -/
def updateProjectValid (input : UpdateProjectInput) : Bool :=
  decide (1 ≤ input.id.length) &&
    (input.title.isSome || input.description.isSome ||
      input.sourceDevice.isSome || input.sourceApp.isSome)

/-- The `.set({...})` object of `updateProject`: each provided field is
written, the rest are kept, and `updatedAt` is refreshed. -/
def applyProjectUpdate (input : UpdateProjectInput) (now : Nat) (p : Project) : Project :=
  { p with
    title := match input.title with | some t => some t | none => p.title
    description := match input.description with | some d => some d | none => p.description
    sourceDevice := match input.sourceDevice with | some d => some d | none => p.sourceDevice
    sourceApp := match input.sourceApp with | some a => some a | none => p.sourceApp
    updatedAt := now }

/-- `updateProject`: validation, then auth, then `getOwnedProject`, then
`update ... where id = input.id` returning the first updated row (the
destructured `[project]`, possibly absent, hence `Option Project`). -/
def updateProject (ctx : Option User) (input : UpdateProjectInput)
    (now : Nat) (s : Store) :
    Except ActionError (Option Project × Store) :=
  if updateProjectValid input = false then .error validationFailedError else
  match requireUser ctx with
  | .error e => .error e
  | .ok user =>
    match getOwnedProject s input.id user.id with
    | .error e => .error e
    | .ok _ =>
      let newProjects := s.screenshotProjects.map
        (fun p => if p.id == input.id then applyProjectUpdate input now p else p)
      let returned := (newProjects.filter (fun p => p.id == input.id)).head?
      .ok (returned, { s with screenshotProjects := newProjects })

/-! ### listProjects -/

/-- `listProjects`: requires a user, returns all projects whose `userId`
equals the caller's id, with their count. -/
def listProjects (ctx : Option User) (s : Store) :
    Except ActionError (ListResult Project × Store) :=
  match requireUser ctx with
  | .error e => .error e
  | .ok user =>
    let projects := s.screenshotProjects.filter (fun p => p.userId == user.id)
    .ok (⟨projects, projects.length⟩, s)

/-! ### createScreenshot -/

/-- Input of `createScreenshot`. -/
structure CreateScreenshotInput where
  projectId : Option String
  originalImageUrl : String
  editedImageUrl : Option String
  width : Option Int
  height : Option Int
deriving Repr, DecidableEq

/-- The zod schema of `createScreenshot`: `originalImageUrl` nonempty. -/
def createScreenshotValid (input : CreateScreenshotInput) : Bool :=
  decide (1 ≤ input.originalImageUrl.length)

/-- `createScreenshot`: validation, then auth; when `input.projectId` is
truthy (present and non-empty) the project must resolve as owned;
inserts a screenshot owned by the caller and returns it.  Note the
truthiness test: an empty-string `projectId` skips the ownership check
yet is still stored (`input.projectId ?? null` keeps `""`). -/
def createScreenshot (ctx : Option User) (input : CreateScreenshotInput)
    (freshId : String) (now : Nat) (s : Store) :
    Except ActionError (Screenshot × Store) :=
  if createScreenshotValid input = false then .error validationFailedError else
  match requireUser ctx with
  | .error e => .error e
  | .ok user =>
    match (if strTruthy input.projectId then
            (getOwnedProject s (input.projectId.getD "") user.id).map (fun _ => ())
          else .ok ()) with
    | .error e => .error e
    | .ok _ =>
      let shot : Screenshot :=
        { id := freshId
          projectId := input.projectId
          userId := user.id
          originalImageUrl := input.originalImageUrl
          editedImageUrl := input.editedImageUrl
          width := input.width
          height := input.height
          createdAt := now
          updatedAt := now }
      .ok (shot, { s with screenshots := s.screenshots ++ [shot] })

/-! ### updateScreenshot -/

/-- Input of `updateScreenshot`. -/
structure UpdateScreenshotInput where
  id : String
  projectId : Option String
  editedImageUrl : Option String
  width : Option Int
  height : Option Int
deriving Repr, DecidableEq

/-- The zod schema of `updateScreenshot`: `id` nonempty, and at least one
of the four updatable fields present (the `.refine`). -/
def updateScreenshotValid (input : UpdateScreenshotInput) : Bool :=
  decide (1 ≤ input.id.length) &&
    (input.projectId.isSome || input.editedImageUrl.isSome ||
      input.width.isSome || input.height.isSome)

/-- The `.set({...})` object of `updateScreenshot`. -/
def applyScreenshotUpdate (input : UpdateScreenshotInput) (now : Nat) (sh : Screenshot) : Screenshot :=
  { sh with
    projectId := match input.projectId with | some p => some p | none => sh.projectId
    editedImageUrl := match input.editedImageUrl with | some u => some u | none => sh.editedImageUrl
    width := match input.width with | some w => some w | none => sh.width
    height := match input.height with | some h => some h | none => sh.height
    updatedAt := now }

/-- `updateScreenshot`: validation, then auth, then an inline owned
lookup of the screenshot (identical to `getOwnedScreenshot`); when
`input.projectId !== undefined` (zod forbids `null`, so the `!== null`
test is vacuous) the target project must resolve as owned — here even an
empty-string `projectId` is checked; then applies the provided fields
and returns the first updated row. -/
def updateScreenshot (ctx : Option User) (input : UpdateScreenshotInput)
    (now : Nat) (s : Store) :
    Except ActionError (Option Screenshot × Store) :=
  if updateScreenshotValid input = false then .error validationFailedError else
  match requireUser ctx with
  | .error e => .error e
  | .ok user =>
    match (s.screenshots.filter (fun sh => sh.id == input.id && sh.userId == user.id)).head? with
    | none => .error screenshotNotFoundError
    | some _ =>
      match (match input.projectId with
             | some pid => (getOwnedProject s pid user.id).map (fun _ => ())
             | none => .ok ()) with
      | .error e => .error e
      | .ok _ =>
        let newShots := s.screenshots.map
          (fun sh => if sh.id == input.id then applyScreenshotUpdate input now sh else sh)
        let returned := (newShots.filter (fun sh => sh.id == input.id)).head?
        .ok (returned, { s with screenshots := newShots })

/-! ### listScreenshots -/

/-- Input of `listScreenshots`. -/
structure ListScreenshotsInput where
  projectId : Option String
deriving Repr, DecidableEq

/-- `listScreenshots`: auth; when `input.projectId` is truthy it must
resolve as owned; filters screenshots by the caller's `userId`, and
also by `projectId` when truthy. -/
def listScreenshots (ctx : Option User) (input : ListScreenshotsInput) (s : Store) :
    Except ActionError (ListResult Screenshot × Store) :=
  match requireUser ctx with
  | .error e => .error e
  | .ok user =>
    match (if strTruthy input.projectId then
            (getOwnedProject s (input.projectId.getD "") user.id).map (fun _ => ())
          else .ok ()) with
    | .error e => .error e
    | .ok _ =>
      let shots := s.screenshots.filter
        (fun sh => sh.userId == user.id &&
          (if strTruthy input.projectId then sh.projectId == input.projectId else true))
      .ok (⟨shots, shots.length⟩, s)

/-! ### createScreenshotEdit -/

/-- Input of `createScreenshotEdit`. -/
structure CreateScreenshotEditInput where
  screenshotId : String
  editType : Option String
  operationsJson : Option String
  resultImageUrl : Option String
deriving Repr, DecidableEq

/-- The zod schema of `createScreenshotEdit`: `screenshotId` nonempty. -/
def createScreenshotEditValid (input : CreateScreenshotEditInput) : Bool :=
  decide (1 ≤ input.screenshotId.length)

/-- `createScreenshotEdit`: validation, auth, owned-screenshot check,
then inserts an edit row owned by the caller (append-only: no update or
delete path exists for `ScreenshotEdits`). -/
def createScreenshotEdit (ctx : Option User) (input : CreateScreenshotEditInput)
    (freshId : String) (now : Nat) (s : Store) :
    Except ActionError (ScreenshotEdit × Store) :=
  if createScreenshotEditValid input = false then .error validationFailedError else
  match requireUser ctx with
  | .error e => .error e
  | .ok user =>
    match getOwnedScreenshot s input.screenshotId user.id with
    | .error e => .error e
    | .ok _ =>
      let edit : ScreenshotEdit :=
        { id := freshId
          screenshotId := input.screenshotId
          userId := user.id
          editType := input.editType
          operationsJson := input.operationsJson
          resultImageUrl := input.resultImageUrl
          createdAt := now }
      .ok (edit, { s with screenshotEdits := s.screenshotEdits ++ [edit] })

/-! ### listScreenshotEdits -/

/-- Input of `listScreenshotEdits`. -/
structure ListScreenshotEditsInput where
  screenshotId : String
deriving Repr, DecidableEq

/-- The zod schema of `listScreenshotEdits`: `screenshotId` nonempty. -/
def listScreenshotEditsValid (input : ListScreenshotEditsInput) : Bool :=
  decide (1 ≤ input.screenshotId.length)

/-- `listScreenshotEdits`: validation, auth, owned-screenshot check, then
returns all edits whose `screenshotId` matches — the final select has no
`userId` condition. -/
def listScreenshotEdits (ctx : Option User) (input : ListScreenshotEditsInput) (s : Store) :
    Except ActionError (ListResult ScreenshotEdit × Store) :=
  if listScreenshotEditsValid input = false then .error validationFailedError else
  match requireUser ctx with
  | .error e => .error e
  | .ok user =>
    match getOwnedScreenshot s input.screenshotId user.id with
    | .error e => .error e
    | .ok _ =>
      let edits := s.screenshotEdits.filter (fun e => e.screenshotId == input.screenshotId)
      .ok (⟨edits, edits.length⟩, s)

/-! ### The transition system

An `ActionCall` is one invocation of one action together with the
nondeterministic data the real run draws from its environment: the
caller context, the parsed input, the generated id and the clock
reading.  `stepCall` is the store after the call (unchanged when the
call throws).  `Steps` is the multi-step relation, requiring each
generated id to be fresh for its table, as `crypto.randomUUID()`
guarantees; a store is `Reachable` when the empty store steps to it. -/

/-- One invocation of one action with its environment-drawn data. -/
inductive ActionCall where
  | callCreateProject (ctx : Option User) (input : CreateProjectInput) (freshId : String) (now : Nat)
  | callUpdateProject (ctx : Option User) (input : UpdateProjectInput) (now : Nat)
  | callListProjects (ctx : Option User)
  | callCreateScreenshot (ctx : Option User) (input : CreateScreenshotInput) (freshId : String) (now : Nat)
  | callUpdateScreenshot (ctx : Option User) (input : UpdateScreenshotInput) (now : Nat)
  | callListScreenshots (ctx : Option User) (input : ListScreenshotsInput)
  | callCreateScreenshotEdit (ctx : Option User) (input : CreateScreenshotEditInput) (freshId : String) (now : Nat)
  | callListScreenshotEdits (ctx : Option User) (input : ListScreenshotEditsInput)

/-- The store an action run leaves behind: the returned one on success,
the original on a thrown error. -/
def resultStore {α : Type} (s : Store) : Except ActionError (α × Store) → Store
  | .ok r => r.2
  | .error _ => s

/-- The store after executing one call. -/
def stepCall (c : ActionCall) (s : Store) : Store :=
  match c with
  | .callCreateProject ctx input freshId now => resultStore s (createProject ctx input freshId now s)
  | .callUpdateProject ctx input now => resultStore s (updateProject ctx input now s)
  | .callListProjects ctx => resultStore s (listProjects ctx s)
  | .callCreateScreenshot ctx input freshId now => resultStore s (createScreenshot ctx input freshId now s)
  | .callUpdateScreenshot ctx input now => resultStore s (updateScreenshot ctx input now s)
  | .callListScreenshots ctx input => resultStore s (listScreenshots ctx input s)
  | .callCreateScreenshotEdit ctx input freshId now => resultStore s (createScreenshotEdit ctx input freshId now s)
  | .callListScreenshotEdits ctx input => resultStore s (listScreenshotEdits ctx input s)

/-- `crypto.randomUUID()` never repeats an id already in the target
table (nor collides with a later one); calls that generate no id carry
no constraint. -/
def freshFor (c : ActionCall) (s : Store) : Bool :=
  match c with
  | .callCreateProject _ _ freshId _ => s.screenshotProjects.all (fun p => !(p.id == freshId))
  | .callCreateScreenshot _ _ freshId _ => s.screenshots.all (fun sh => !(sh.id == freshId))
  | .callCreateScreenshotEdit _ _ freshId _ => s.screenshotEdits.all (fun e => !(e.id == freshId))
  | _ => true

/-- Multi-step execution from a store, with fresh generated ids. -/
inductive Steps : Store → Store → Prop where
  | refl (s : Store) : Steps s s
  | tail {s t : Store} (c : ActionCall) : Steps s t → freshFor c t = true → Steps s (stepCall c t)

/-- A store is reachable when the empty store steps to it. -/
def Reachable (s : Store) : Prop := Steps Store.empty s

/-! ### The store invariant -/

/-- The invariant maintained by every action, starting from the empty
store:

* primary keys: project ids and screenshot ids are pairwise distinct;
* every screenshot carrying a truthy (non-empty) `projectId` references
  an existing project owned by the same user;
* every edit references an existing screenshot owned by the same user. -/
structure Inv (s : Store) : Prop where
  projIdsNodup : (s.screenshotProjects.map Project.id).Nodup
  shotIdsNodup : (s.screenshots.map Screenshot.id).Nodup
  shotProjOwned : ∀ sh ∈ s.screenshots, ∀ pid, sh.projectId = some pid → pid ≠ "" →
    ∃ p ∈ s.screenshotProjects, p.id = pid ∧ p.userId = sh.userId
  editShotOwned : ∀ e ∈ s.screenshotEdits, ∃ sh ∈ s.screenshots,
    sh.id = e.screenshotId ∧ sh.userId = e.userId

theorem inv_empty : Inv Store.empty := by
  constructor <;> simp [Store.empty]

/-- Two rows of a table with equal keys are the same row when the keys
are pairwise distinct. -/
theorem eq_of_key_nodup {α β : Type} (key : α → β) {l : List α}
    (h : (l.map key).Nodup) {a b : α} (ha : a ∈ l) (hb : b ∈ l)
    (hk : key a = key b) : a = b := by
  induction l with
  | nil => cases ha
  | cons x xs ih =>
    simp only [List.map_cons, List.nodup_cons] at h
    rcases List.mem_cons.mp ha with rfl | ha' <;>
      rcases List.mem_cons.mp hb with rfl | hb'
    · rfl
    · exact absurd (hk ▸ List.mem_map_of_mem key hb') h.1
    · exact absurd (hk ▸ List.mem_map_of_mem key ha') h.1
    · exact ih h.2 ha' hb'

/-- When an owned-project lookup succeeds, the returned row is in the
table, has the looked-up id, and is owned by the looked-up user. -/
theorem getOwnedProject_ok {s : Store} {pid uid : String} {p : Project}
    (h : getOwnedProject s pid uid = .ok p) :
    p ∈ s.screenshotProjects ∧ p.id = pid ∧ p.userId = uid := by
  unfold getOwnedProject at h
  split at h
  · cases h
  next q hq =>
    cases h
    have hmem := List.mem_of_mem_head? hq
    have := List.mem_filter.mp hmem
    simp only [Bool.and_eq_true, beq_iff_eq] at this
    exact ⟨this.1, this.2.1, this.2.2⟩

/-- When an owned-screenshot lookup succeeds, the returned row is in the
table, has the looked-up id, and is owned by the looked-up user. -/
theorem getOwnedScreenshot_ok {s : Store} {sid uid : String} {sh : Screenshot}
    (h : getOwnedScreenshot s sid uid = .ok sh) :
    sh ∈ s.screenshots ∧ sh.id = sid ∧ sh.userId = uid := by
  unfold getOwnedScreenshot at h
  split at h
  · cases h
  next q hq =>
    cases h
    have hmem := List.mem_of_mem_head? hq
    have := List.mem_filter.mp hmem
    simp only [Bool.and_eq_true, beq_iff_eq] at this
    exact ⟨this.1, this.2.1, this.2.2⟩

/-! ### Success-shape lemmas -/

theorem requireUser_ok {ctx : Option User} {u : User}
    (h : requireUser ctx = .ok u) : ctx = some u := by
  cases ctx <;> simp_all [requireUser]

theorem applyProjectUpdate_id (input : UpdateProjectInput) (now : Nat) (p : Project) :
    (applyProjectUpdate input now p).id = p.id := rfl

theorem applyProjectUpdate_userId (input : UpdateProjectInput) (now : Nat) (p : Project) :
    (applyProjectUpdate input now p).userId = p.userId := rfl

theorem applyScreenshotUpdate_id (input : UpdateScreenshotInput) (now : Nat) (sh : Screenshot) :
    (applyScreenshotUpdate input now sh).id = sh.id := rfl

theorem applyScreenshotUpdate_userId (input : UpdateScreenshotInput) (now : Nat) (sh : Screenshot) :
    (applyScreenshotUpdate input now sh).userId = sh.userId := rfl

theorem createProject_ok {ctx : Option User} {input : CreateProjectInput}
    {freshId : String} {now : Nat} {s : Store} {r : Project × Store}
    (h : createProject ctx input freshId now s = .ok r) :
    ∃ u, ctx = some u ∧
      r.1.id = freshId ∧ r.1.userId = u.id ∧
      r.2.screenshotProjects = s.screenshotProjects ++ [r.1] ∧
      r.2.screenshots = s.screenshots ∧
      r.2.screenshotEdits = s.screenshotEdits := by
  unfold createProject at h
  split at h
  · cases h
  next user huser =>
    cases h
    exact ⟨user, requireUser_ok huser, rfl, rfl, rfl, rfl, rfl⟩

theorem updateProject_ok {ctx : Option User} {input : UpdateProjectInput}
    {now : Nat} {s : Store} {r : Option Project × Store}
    (h : updateProject ctx input now s = .ok r) :
    updateProjectValid input = true ∧
    ∃ u, ctx = some u ∧
      ∃ ex, getOwnedProject s input.id u.id = .ok ex ∧
        r.2.screenshotProjects = s.screenshotProjects.map
          (fun p => if p.id == input.id then applyProjectUpdate input now p else p) ∧
        r.1 = (r.2.screenshotProjects.filter (fun p => p.id == input.id)).head? ∧
        r.2.screenshots = s.screenshots ∧
        r.2.screenshotEdits = s.screenshotEdits := by
  unfold updateProject at h
  split at h
  · cases h
  next hvalid =>
    split at h
    · cases h
    next user huser =>
      split at h
      · cases h
      next ex hex =>
        cases h
        exact ⟨Bool.eq_true_of_not_eq_false hvalid, user, requireUser_ok huser,
          ex, hex, rfl, rfl, rfl, rfl⟩

theorem createScreenshot_ok {ctx : Option User} {input : CreateScreenshotInput}
    {freshId : String} {now : Nat} {s : Store} {r : Screenshot × Store}
    (h : createScreenshot ctx input freshId now s = .ok r) :
    ∃ u, ctx = some u ∧
      r.1.id = freshId ∧ r.1.projectId = input.projectId ∧ r.1.userId = u.id ∧
      (∀ pid, input.projectId = some pid → pid ≠ "" →
        ∃ p, getOwnedProject s pid u.id = .ok p) ∧
      r.2.screenshotProjects = s.screenshotProjects ∧
      r.2.screenshots = s.screenshots ++ [r.1] ∧
      r.2.screenshotEdits = s.screenshotEdits := by
  unfold createScreenshot at h
  split at h
  · cases h
  split at h
  · cases h
  next user huser =>
    split at h
    · cases h
    next hguard =>
      cases h
      refine ⟨user, requireUser_ok huser, rfl, rfl, rfl, ?_, rfl, rfl, rfl⟩
      intro pid hpid hne
      rw [hpid] at hguard
      have ht : strTruthy (some pid) = true := by
        simp [strTruthy, hne]
      rw [if_pos ht] at hguard
      simp only [Option.getD_some] at hguard
      cases hp : getOwnedProject s pid user.id with
      | error e => rw [hp] at hguard; cases hguard
      | ok p => exact ⟨p, rfl⟩

theorem updateScreenshot_ok {ctx : Option User} {input : UpdateScreenshotInput}
    {now : Nat} {s : Store} {r : Option Screenshot × Store}
    (h : updateScreenshot ctx input now s = .ok r) :
    updateScreenshotValid input = true ∧
    ∃ u, ctx = some u ∧
      ∃ ex, ex ∈ s.screenshots ∧ ex.id = input.id ∧ ex.userId = u.id ∧
        (∀ pid, input.projectId = some pid →
          ∃ p, getOwnedProject s pid u.id = .ok p) ∧
        r.2.screenshots = s.screenshots.map
          (fun sh => if sh.id == input.id then applyScreenshotUpdate input now sh else sh) ∧
        r.1 = (r.2.screenshots.filter (fun sh => sh.id == input.id)).head? ∧
        r.2.screenshotProjects = s.screenshotProjects ∧
        r.2.screenshotEdits = s.screenshotEdits := by
  unfold updateScreenshot at h
  split at h
  · cases h
  next hvalid =>
    split at h
    · cases h
    next user huser =>
      split at h
      · cases h
      next ex hex =>
        split at h
        · cases h
        next hguard =>
          cases h
          have hmem := List.mem_of_mem_head? hex
          have hex' := List.mem_filter.mp hmem
          simp only [Bool.and_eq_true, beq_iff_eq] at hex'
          refine ⟨Bool.eq_true_of_not_eq_false hvalid, user, requireUser_ok huser,
            ex, hex'.1, hex'.2.1, hex'.2.2, ?_, rfl, rfl, rfl, rfl⟩
          intro pid hpid
          rw [hpid] at hguard
          cases hp : getOwnedProject s pid user.id with
          | error e => simp [hp, Except.map] at hguard
          | ok p => exact ⟨p, rfl⟩

theorem createScreenshotEdit_ok {ctx : Option User} {input : CreateScreenshotEditInput}
    {freshId : String} {now : Nat} {s : Store} {r : ScreenshotEdit × Store}
    (h : createScreenshotEdit ctx input freshId now s = .ok r) :
    ∃ u, ctx = some u ∧
      ∃ sh, getOwnedScreenshot s input.screenshotId u.id = .ok sh ∧
        r.1.id = freshId ∧ r.1.screenshotId = input.screenshotId ∧ r.1.userId = u.id ∧
        r.2.screenshotProjects = s.screenshotProjects ∧
        r.2.screenshots = s.screenshots ∧
        r.2.screenshotEdits = s.screenshotEdits ++ [r.1] := by
  unfold createScreenshotEdit at h
  split at h
  · cases h
  split at h
  · cases h
  next user huser =>
    split at h
    · cases h
    next sh hsh =>
      cases h
      exact ⟨user, requireUser_ok huser, sh, hsh, rfl, rfl, rfl, rfl, rfl, rfl⟩

theorem listProjects_store {ctx : Option User} {s : Store}
    {r : ListResult Project × Store} (h : listProjects ctx s = .ok r) : r.2 = s := by
  unfold listProjects at h
  split at h
  · cases h
  · cases h; rfl

theorem listScreenshots_store {ctx : Option User} {input : ListScreenshotsInput} {s : Store}
    {r : ListResult Screenshot × Store} (h : listScreenshots ctx input s = .ok r) : r.2 = s := by
  unfold listScreenshots at h
  split at h
  · cases h
  split at h
  · cases h
  · cases h; rfl

theorem listScreenshotEdits_store {ctx : Option User} {input : ListScreenshotEditsInput} {s : Store}
    {r : ListResult ScreenshotEdit × Store} (h : listScreenshotEdits ctx input s = .ok r) : r.2 = s := by
  unfold listScreenshotEdits at h
  split at h
  · cases h
  split at h
  · cases h
  split at h
  · cases h
  · cases h; rfl

/-! ### Invariant preservation -/

theorem map_key_update {α β : Type} (key : α → β) (f : α → α) (pred : α → Bool)
    (hf : ∀ a, key (f a) = key a) (l : List α) :
    ((l.map (fun a => if pred a then f a else a)).map key) = l.map key := by
  induction l with
  | nil => rfl
  | cons x xs ih => by_cases h : pred x <;> simp [h, hf, ih]

theorem nodup_concat_key {α β : Type} {key : α → β} {l : List α} {a : α}
    (h : (l.map key).Nodup) (hfresh : ∀ b ∈ l, key b ≠ key a) :
    (((l ++ [a]).map key).Nodup) := by
  rw [List.map_append]
  refine List.Nodup.append h (List.nodup_singleton _) ?_
  intro x hx hx'
  simp only [List.map_cons, List.map_nil, List.mem_singleton] at hx'
  obtain ⟨b, hb, rfl⟩ := List.mem_map.mp hx
  exact hfresh b hb hx'

theorem inv_createProject {ctx : Option User} {input : CreateProjectInput}
    {freshId : String} {now : Nat} {s : Store} {r : Project × Store}
    (hs : Inv s) (h : createProject ctx input freshId now s = .ok r)
    (hf : ∀ p ∈ s.screenshotProjects, p.id ≠ freshId) : Inv r.2 := by
  obtain ⟨u, hctx, hid, huid, hprojects, hshots, hedits⟩ := createProject_ok h
  refine ⟨?_, ?_, ?_, ?_⟩
  · rw [hprojects]
    exact nodup_concat_key hs.projIdsNodup (fun b hb => by rw [hid]; exact hf b hb)
  · rw [hshots]; exact hs.shotIdsNodup
  · intro sh hsh pid hpid hne
    rw [hshots] at hsh
    obtain ⟨p, hp, h1, h2⟩ := hs.shotProjOwned sh hsh pid hpid hne
    exact ⟨p, by rw [hprojects]; exact List.mem_append_left _ hp, h1, h2⟩
  · intro e he
    rw [hedits] at he
    obtain ⟨sh, hshm, h1, h2⟩ := hs.editShotOwned e he
    exact ⟨sh, by rw [hshots]; exact hshm, h1, h2⟩

theorem inv_updateProject {ctx : Option User} {input : UpdateProjectInput}
    {now : Nat} {s : Store} {r : Option Project × Store}
    (hs : Inv s) (h : updateProject ctx input now s = .ok r) : Inv r.2 := by
  obtain ⟨_, u, hctx, ex, hex, hprojects, hret, hshots, hedits⟩ := updateProject_ok h
  refine ⟨?_, ?_, ?_, ?_⟩
  · rw [hprojects, map_key_update Project.id _ _ (fun p => applyProjectUpdate_id input now p)]
    exact hs.projIdsNodup
  · rw [hshots]; exact hs.shotIdsNodup
  · intro sh hsh pid hpid hne
    rw [hshots] at hsh
    obtain ⟨p, hp, h1, h2⟩ := hs.shotProjOwned sh hsh pid hpid hne
    refine ⟨if p.id == input.id then applyProjectUpdate input now p else p, ?_, ?_, ?_⟩
    · rw [hprojects]; exact List.mem_map_of_mem _ hp
    · split
      · rw [applyProjectUpdate_id]; exact h1
      · exact h1
    · split
      · rw [applyProjectUpdate_userId]; exact h2
      · exact h2
  · intro e he
    rw [hedits] at he
    obtain ⟨sh, hshm, h1, h2⟩ := hs.editShotOwned e he
    exact ⟨sh, by rw [hshots]; exact hshm, h1, h2⟩

theorem inv_createScreenshot {ctx : Option User} {input : CreateScreenshotInput}
    {freshId : String} {now : Nat} {s : Store} {r : Screenshot × Store}
    (hs : Inv s) (h : createScreenshot ctx input freshId now s = .ok r)
    (hf : ∀ sh ∈ s.screenshots, sh.id ≠ freshId) : Inv r.2 := by
  obtain ⟨u, hctx, hid, hpidEq, huid, hcheck, hprojects, hshots, hedits⟩ := createScreenshot_ok h
  refine ⟨?_, ?_, ?_, ?_⟩
  · rw [hprojects]; exact hs.projIdsNodup
  · rw [hshots]
    exact nodup_concat_key hs.shotIdsNodup (fun b hb => by rw [hid]; exact hf b hb)
  · intro sh hsh pid hpid hne
    rw [hshots] at hsh
    rcases List.mem_append.mp hsh with hold | hnew
    · obtain ⟨p, hp, h1, h2⟩ := hs.shotProjOwned sh hold pid hpid hne
      exact ⟨p, by rw [hprojects]; exact hp, h1, h2⟩
    · have hshr : sh = r.1 := by simpa using hnew
      subst hshr
      obtain ⟨p, hpok⟩ := hcheck pid (by rw [← hpidEq]; exact hpid) hne
      obtain ⟨hpm, h1, h2⟩ := getOwnedProject_ok hpok
      exact ⟨p, by rw [hprojects]; exact hpm, h1, by rw [h2, huid]⟩
  · intro e he
    rw [hedits] at he
    obtain ⟨sh, hshm, h1, h2⟩ := hs.editShotOwned e he
    exact ⟨sh, by rw [hshots]; exact List.mem_append_left _ hshm, h1, h2⟩

theorem inv_updateScreenshot {ctx : Option User} {input : UpdateScreenshotInput}
    {now : Nat} {s : Store} {r : Option Screenshot × Store}
    (hs : Inv s) (h : updateScreenshot ctx input now s = .ok r) : Inv r.2 := by
  obtain ⟨_, u, hctx, ex, hexmem, hexid, hexuid, hcheck, hshots, hret, hprojects, hedits⟩ :=
    updateScreenshot_ok h
  refine ⟨?_, ?_, ?_, ?_⟩
  · rw [hprojects]; exact hs.projIdsNodup
  · rw [hshots, map_key_update Screenshot.id _ _ (fun sh => applyScreenshotUpdate_id input now sh)]
    exact hs.shotIdsNodup
  · intro m hm pid hpid hne
    rw [hshots] at hm
    obtain ⟨sh, hshm, hfeq⟩ := List.mem_map.mp hm
    by_cases hc : (sh.id == input.id) = true
    · rw [if_pos hc] at hfeq
      subst hfeq
      have hshex : sh = ex :=
        eq_of_key_nodup Screenshot.id hs.shotIdsNodup hshm hexmem
          (by rw [hexid]; exact beq_iff_eq.mp hc)
      have huser : (applyScreenshotUpdate input now sh).userId = u.id := by
        rw [applyScreenshotUpdate_userId, hshex, hexuid]
      cases hip : input.projectId with
      | none =>
        have hproj : (applyScreenshotUpdate input now sh).projectId = sh.projectId := by
          simp [applyScreenshotUpdate, hip]
        obtain ⟨p, hp, h1, h2⟩ := hs.shotProjOwned sh hshm pid (by rw [← hproj]; exact hpid) hne
        refine ⟨p, by rw [hprojects]; exact hp, h1, ?_⟩
        rw [h2, applyScreenshotUpdate_userId]
      | some q =>
        have hproj : (applyScreenshotUpdate input now sh).projectId = some q := by
          simp [applyScreenshotUpdate, hip]
        have hq : q = pid := by
          rw [hproj] at hpid
          exact Option.some_injective _ hpid
        obtain ⟨p, hpok⟩ := hcheck q hip
        obtain ⟨hpm, h1, h2⟩ := getOwnedProject_ok hpok
        exact ⟨p, by rw [hprojects]; exact hpm, by rw [h1, hq], by rw [h2, huser]⟩
    · rw [if_neg hc] at hfeq
      subst hfeq
      obtain ⟨p, hp, h1, h2⟩ := hs.shotProjOwned sh hshm pid hpid hne
      exact ⟨p, by rw [hprojects]; exact hp, h1, h2⟩
  · intro e he
    rw [hedits] at he
    obtain ⟨sh, hshm, h1, h2⟩ := hs.editShotOwned e he
    refine ⟨if sh.id == input.id then applyScreenshotUpdate input now sh else sh, ?_, ?_, ?_⟩
    · rw [hshots]; exact List.mem_map_of_mem _ hshm
    · split
      · rw [applyScreenshotUpdate_id]; exact h1
      · exact h1
    · split
      · rw [applyScreenshotUpdate_userId]; exact h2
      · exact h2

theorem inv_createScreenshotEdit {ctx : Option User} {input : CreateScreenshotEditInput}
    {freshId : String} {now : Nat} {s : Store} {r : ScreenshotEdit × Store}
    (hs : Inv s) (h : createScreenshotEdit ctx input freshId now s = .ok r) : Inv r.2 := by
  obtain ⟨u, hctx, sh, hshok, hid, hsid, huid, hprojects, hshots, hedits⟩ :=
    createScreenshotEdit_ok h
  obtain ⟨hshm, hshi, hshu⟩ := getOwnedScreenshot_ok hshok
  refine ⟨?_, ?_, ?_, ?_⟩
  · rw [hprojects]; exact hs.projIdsNodup
  · rw [hshots]; exact hs.shotIdsNodup
  · intro m hm pid hpid hne
    rw [hshots] at hm
    obtain ⟨p, hp, h1, h2⟩ := hs.shotProjOwned m hm pid hpid hne
    exact ⟨p, by rw [hprojects]; exact hp, h1, h2⟩
  · intro e he
    rw [hedits] at he
    rcases List.mem_append.mp he with hold | hnew
    · obtain ⟨sh', hshm', h1, h2⟩ := hs.editShotOwned e hold
      exact ⟨sh', by rw [hshots]; exact hshm', h1, h2⟩
    · have her : e = r.1 := by simpa using hnew
      subst her
      exact ⟨sh, by rw [hshots]; exact hshm, by rw [hshi, hsid], by rw [hshu, huid]⟩

/-- Every single action call preserves the invariant. -/
theorem inv_step {s : Store} (c : ActionCall) (hs : Inv s)
    (hf : freshFor c s = true) : Inv (stepCall c s) := by
  cases c with
  | callCreateProject ctx input freshId now =>
    simp only [stepCall]
    cases h : createProject ctx input freshId now s with
    | error e => exact hs
    | ok r =>
      refine inv_createProject hs h ?_
      simp only [freshFor, List.all_eq_true, Bool.not_eq_true'] at hf
      intro p hp
      exact fun hcontra => by simpa [hcontra] using hf p hp
  | callUpdateProject ctx input now =>
    simp only [stepCall]
    cases h : updateProject ctx input now s with
    | error e => exact hs
    | ok r => exact inv_updateProject hs h
  | callListProjects ctx =>
    simp only [stepCall]
    cases h : listProjects ctx s with
    | error e => exact hs
    | ok r => exact (listProjects_store h) ▸ hs
  | callCreateScreenshot ctx input freshId now =>
    simp only [stepCall]
    cases h : createScreenshot ctx input freshId now s with
    | error e => exact hs
    | ok r =>
      refine inv_createScreenshot hs h ?_
      simp only [freshFor, List.all_eq_true, Bool.not_eq_true'] at hf
      intro sh hsh
      exact fun hcontra => by simpa [hcontra] using hf sh hsh
  | callUpdateScreenshot ctx input now =>
    simp only [stepCall]
    cases h : updateScreenshot ctx input now s with
    | error e => exact hs
    | ok r => exact inv_updateScreenshot hs h
  | callListScreenshots ctx input =>
    simp only [stepCall]
    cases h : listScreenshots ctx input s with
    | error e => exact hs
    | ok r => exact (listScreenshots_store h) ▸ hs
  | callCreateScreenshotEdit ctx input freshId now =>
    simp only [stepCall]
    cases h : createScreenshotEdit ctx input freshId now s with
    | error e => exact hs
    | ok r => exact inv_createScreenshotEdit hs h
  | callListScreenshotEdits ctx input =>
    simp only [stepCall]
    cases h : listScreenshotEdits ctx input s with
    | error e => exact hs
    | ok r => exact (listScreenshotEdits_store h) ▸ hs

/-- The invariant transports along multi-step execution. -/
theorem inv_steps {s t : Store} (h : Steps s t) (hs : Inv s) : Inv t := by
  induction h with
  | refl => exact hs
  | tail c hst hf ih => exact inv_step c ih hf

/-- Every reachable store satisfies the invariant. -/
theorem reachable_inv {s : Store} (h : Reachable s) : Inv s :=
  inv_steps h inv_empty

theorem listProjects_ok {ctx : Option User} {s : Store}
    {r : ListResult Project × Store} (h : listProjects ctx s = .ok r) :
    ∃ u, ctx = some u ∧
      r.1.items = s.screenshotProjects.filter (fun p => p.userId == u.id) ∧
      r.1.total = r.1.items.length ∧ r.2 = s := by
  unfold listProjects at h
  split at h
  · cases h
  next user huser =>
    cases h
    exact ⟨user, requireUser_ok huser, rfl, rfl, rfl⟩

theorem listScreenshots_ok {ctx : Option User} {input : ListScreenshotsInput} {s : Store}
    {r : ListResult Screenshot × Store} (h : listScreenshots ctx input s = .ok r) :
    ∃ u, ctx = some u ∧
      (strTruthy input.projectId = true →
        ∃ p, getOwnedProject s (input.projectId.getD "") u.id = .ok p) ∧
      r.1.items = s.screenshots.filter (fun sh => sh.userId == u.id &&
        (if strTruthy input.projectId then sh.projectId == input.projectId else true)) ∧
      r.1.total = r.1.items.length ∧ r.2 = s := by
  unfold listScreenshots at h
  split at h
  · cases h
  next user huser =>
    split at h
    · cases h
    next hguard =>
      cases h
      refine ⟨user, requireUser_ok huser, ?_, rfl, rfl, rfl⟩
      intro ht
      rw [if_pos ht] at hguard
      cases hp : getOwnedProject s (input.projectId.getD "") user.id with
      | error e => simp [hp, Except.map] at hguard
      | ok p => exact ⟨p, rfl⟩

theorem listScreenshotEdits_ok {ctx : Option User} {input : ListScreenshotEditsInput} {s : Store}
    {r : ListResult ScreenshotEdit × Store} (h : listScreenshotEdits ctx input s = .ok r) :
    ∃ u, ctx = some u ∧
      ∃ sh, getOwnedScreenshot s input.screenshotId u.id = .ok sh ∧
        r.1.items = s.screenshotEdits.filter (fun e => e.screenshotId == input.screenshotId) ∧
        r.1.total = r.1.items.length ∧ r.2 = s := by
  unfold listScreenshotEdits at h
  split at h
  · cases h
  split at h
  · cases h
  next user huser =>
    split at h
    · cases h
    next sh hsh =>
      cases h
      exact ⟨user, requireUser_ok huser, sh, hsh, rfl, rfl, rfl⟩

/-- In a table with pairwise-distinct keys, updating the rows whose key
is `x` and then selecting by key `x` yields exactly the updated version
of the unique such row. -/
theorem filter_map_update_eq {α β : Type} [BEq β] [LawfulBEq β] (key : α → β) (f : α → α)
    (hf : ∀ a, key (f a) = key a) (x : β) {l : List α}
    (hnd : (l.map key).Nodup) {ex : α} (hex : ex ∈ l) (hx : key ex = x) :
    ((l.map (fun a => if key a == x then f a else a)).filter (fun a => key a == x)) = [f ex] := by
  induction l with
  | nil => cases hex
  | cons a as ih =>
    simp only [List.map_cons, List.nodup_cons] at hnd
    rcases List.mem_cons.mp hex with rfl | hex'
    · have hcond : (key ex == x) = true := beq_iff_eq.mpr hx
      simp only [List.map_cons, hcond, if_true]
      have hrest : ∀ b ∈ as.map (fun a => if key a == x then f a else a),
          (key b == x) = false := by
        intro b hb
        obtain ⟨c, hc, rfl⟩ := List.mem_map.mp hb
        have hkc : key (if key c == x then f c else c) = key c := by
          split
          · exact hf c
          · rfl
        rw [hkc]
        refine beq_eq_false_iff_ne.mpr ?_
        intro hcontra
        exact hnd.1 (by rw [← hx] at hcontra; exact hcontra ▸ List.mem_map_of_mem key hc)
      rw [List.filter_cons_of_pos (by rw [hf]; exact hcond),
        List.filter_eq_nil_iff.mpr (by intro b hb; rw [hrest b hb]; exact Bool.false_ne_true)]
    · have hka : (key a == x) = false := by
        refine beq_eq_false_iff_ne.mpr ?_
        intro hcontra
        exact hnd.1 (by rw [hcontra, ← hx]; exact List.mem_map_of_mem key hex')
      simp only [List.map_cons]
      rw [if_neg (by simp [hka])]
      rw [List.filter_cons_of_neg (by simp [hka])]
      exact ih hnd.2 hex'

/-! ### A concrete executable scenario

User `u1` creates a project, attaches a screenshot to it and records a
crop edit; then a second user `u2` creates a project of their own.  Used
to instantiate the claim theorems on concrete reachable data. -/

def demoCall1 : ActionCall :=
  .callCreateProject (some ⟨"u1"⟩) ⟨some "Bug report", none, none, none⟩ "proj-1" 0

def demoCall2 : ActionCall :=
  .callCreateScreenshot (some ⟨"u1"⟩) ⟨some "proj-1", "img://1", none, none, none⟩ "shot-1" 1

def demoCall3 : ActionCall :=
  .callCreateScreenshotEdit (some ⟨"u1"⟩) ⟨"shot-1", some "crop", none, none⟩ "edit-1" 2

def demoCall4 : ActionCall :=
  .callCreateProject (some ⟨"u2"⟩) ⟨none, none, none, none⟩ "proj-2" 3

def demoStore : Store :=
  stepCall demoCall4 (stepCall demoCall3 (stepCall demoCall2 (stepCall demoCall1 Store.empty)))

def demoProject1 : Project := ⟨"proj-1", "u1", some "Bug report", none, none, none, 0, 0⟩

def demoProject2 : Project := ⟨"proj-2", "u2", none, none, none, none, 3, 3⟩

def demoShot1 : Screenshot := ⟨"shot-1", some "proj-1", "u1", "img://1", none, none, none, 1, 1⟩

def demoEdit1 : ScreenshotEdit := ⟨"edit-1", "shot-1", "u1", some "crop", none, none, 2⟩

theorem demoStore_eq : demoStore = ⟨[demoProject1, demoProject2], [demoShot1], [demoEdit1]⟩ := rfl

theorem demoStore_reachable : Reachable demoStore :=
  Steps.tail demoCall4
    (Steps.tail demoCall3
      (Steps.tail demoCall2
        (Steps.tail demoCall1 (Steps.refl _) (by decide))
        (by decide))
      (by decide))
    (by decide)

/-! ### The claims -/

/-- C1: for every authenticated caller `A` and every reachable store
state, each of `listProjects`, `listScreenshots` and
`listScreenshotEdits` returns only rows whose `userId` equals `A`'s id
— never a row owned by another user, whatever ids `A` supplies as
input. -/
theorem listings_owner_scoped {s : Store} (hs : Reachable s) (A : User) :
    (∀ r, listProjects (some A) s = .ok r → ∀ p ∈ r.1.items, p.userId = A.id) ∧
    (∀ input r, listScreenshots (some A) input s = .ok r → ∀ sh ∈ r.1.items, sh.userId = A.id) ∧
    (∀ input r, listScreenshotEdits (some A) input s = .ok r → ∀ e ∈ r.1.items, e.userId = A.id) := by
  have hinv := reachable_inv hs
  refine ⟨?_, ?_, ?_⟩
  · intro r h p hp
    obtain ⟨u, hu, hitems, _, _⟩ := listProjects_ok h
    injection hu with hu'
    subst hu'
    rw [hitems] at hp
    exact beq_iff_eq.mp (List.mem_filter.mp hp).2
  · intro input r h sh hsh
    obtain ⟨u, hu, _, hitems, _, _⟩ := listScreenshots_ok h
    injection hu with hu'
    subst hu'
    rw [hitems] at hsh
    have hpred := (List.mem_filter.mp hsh).2
    exact beq_iff_eq.mp ((Bool.and_eq_true _ _).mp hpred).1
  · intro input r h e he
    obtain ⟨u, hu, sh, hshok, hitems, _, _⟩ := listScreenshotEdits_ok h
    injection hu with hu'
    subst hu'
    obtain ⟨hshm, hshi, hshu⟩ := getOwnedScreenshot_ok hshok
    rw [hitems] at he
    have hef := List.mem_filter.mp he
    have heid : e.screenshotId = input.screenshotId := beq_iff_eq.mp hef.2
    obtain ⟨sh', hshm', h1, h2⟩ := hinv.editShotOwned e hef.1
    have hsheq : sh' = sh :=
      eq_of_key_nodup Screenshot.id hinv.shotIdsNodup hshm' hshm (by rw [h1, heid, hshi])
    rw [← h2, hsheq, hshu]

/-- Witness for C1: on the concrete reachable demo store, the single
edit returned by `listScreenshotEdits` for `shot-1` belongs to the
caller `u1`. -/
theorem listings_owner_scoped_witness : demoEdit1.userId = (⟨"u1"⟩ : User).id :=
  (listings_owner_scoped demoStore_reachable ⟨"u1"⟩).2.2 ⟨"shot-1"⟩
    (⟨[demoEdit1], 1⟩, demoStore) rfl demoEdit1 (by decide)

/-- C2: every successful create inserts and returns a record whose
`userId` is the caller's id; the input (quantified over all values of
its declared shape, which has no owner field) cannot set or override
it. -/
theorem creates_set_owner :
    (∀ (u : User) input freshId now s (r : Project × Store),
      createProject (some u) input freshId now s = .ok r →
      r.1.userId = u.id ∧ r.2.screenshotProjects = s.screenshotProjects ++ [r.1]) ∧
    (∀ (u : User) input freshId now s (r : Screenshot × Store),
      createScreenshot (some u) input freshId now s = .ok r →
      r.1.userId = u.id ∧ r.2.screenshots = s.screenshots ++ [r.1]) ∧
    (∀ (u : User) input freshId now s (r : ScreenshotEdit × Store),
      createScreenshotEdit (some u) input freshId now s = .ok r →
      r.1.userId = u.id ∧ r.2.screenshotEdits = s.screenshotEdits ++ [r.1]) := by
  refine ⟨?_, ?_, ?_⟩ <;> intro u input freshId now s r h
  · obtain ⟨u', hu, _, huid, hins, _, _⟩ := createProject_ok h
    injection hu with hu'
    subst hu'
    exact ⟨huid, hins⟩
  · obtain ⟨u', hu, _, _, huid, _, _, hins, _⟩ := createScreenshot_ok h
    injection hu with hu'
    subst hu'
    exact ⟨huid, hins⟩
  · obtain ⟨u', hu, sh, _, _, _, huid, _, _, hins⟩ := createScreenshotEdit_ok h
    injection hu with hu'
    subst hu'
    exact ⟨huid, hins⟩

/-- Witness for C2: the concrete `createProject` call of the demo
scenario returns a project owned by `u1` and appends exactly it. -/
theorem creates_set_owner_witness :
    demoProject1.userId = (⟨"u1"⟩ : User).id ∧
    (⟨[demoProject1], [], []⟩ : Store).screenshotProjects =
      Store.empty.screenshotProjects ++ [demoProject1] :=
  creates_set_owner.1 ⟨"u1"⟩ ⟨some "Bug report", none, none, none⟩ "proj-1" 0 Store.empty
    (demoProject1, ⟨[demoProject1], [], []⟩) rfl

/-- The screenshot inserted by the C3 counterexample call: its
`projectId` is the empty string although no project exists at all. -/
def c3Shot : Screenshot := ⟨"shot-c3", some "", "u1", "img://1", none, none, none, 0, 0⟩

/-- The store after the C3 counterexample call. -/
def c3Store : Store := ⟨[], [c3Shot], []⟩

/-- Counterexample to C3 as stated: `createScreenshot` with the supplied
`projectId = ""` succeeds on the empty store even though that id
resolves to no project at all (`if (input.projectId)` is falsy for the
empty string, so the ownership check is skipped while
`input.projectId ?? null` still stores `""`); the resulting store is
reachable and holds a screenshot whose `projectId` is set but
references no project owned by its user. -/
theorem screenshot_empty_projectId_cex :
    createScreenshot (some ⟨"u1"⟩) ⟨some "", "img://1", none, none, none⟩ "shot-c3" 0 Store.empty
      = .ok (c3Shot, c3Store) ∧
    Reachable c3Store ∧
    c3Store.screenshotProjects = [] ∧
    c3Shot.projectId = some "" := by
  refine ⟨rfl, ?_, rfl, rfl⟩
  exact Steps.tail
    (.callCreateScreenshot (some ⟨"u1"⟩) ⟨some "", "img://1", none, none, none⟩ "shot-c3" 0)
    (Steps.refl _) (by decide)

/-- C3 amended: `createScreenshot` with a supplied non-empty `projectId`
(respectively `updateScreenshot` with any supplied `projectId`) succeeds
only when that id resolves to a project owned by the caller; and in
every reachable state, every screenshot whose `projectId` is set to a
non-empty id references a project owned by the same user.  (The
empty-string `projectId` slips past `createScreenshot`'s truthiness
check, hence the restriction.) -/
theorem screenshot_project_ref_owned :
    (∀ ctx input freshId now s (r : Screenshot × Store),
      createScreenshot ctx input freshId now s = .ok r →
      ∀ pid, input.projectId = some pid → pid ≠ "" →
        ∃ u, ctx = some u ∧ ∃ p ∈ s.screenshotProjects, p.id = pid ∧ p.userId = u.id) ∧
    (∀ ctx input now s (r : Option Screenshot × Store),
      updateScreenshot ctx input now s = .ok r →
      ∀ pid, input.projectId = some pid →
        ∃ u, ctx = some u ∧ ∃ p ∈ s.screenshotProjects, p.id = pid ∧ p.userId = u.id) ∧
    (∀ s, Reachable s → ∀ sh ∈ s.screenshots, ∀ pid, sh.projectId = some pid → pid ≠ "" →
      ∃ p ∈ s.screenshotProjects, p.id = pid ∧ p.userId = sh.userId) := by
  refine ⟨?_, ?_, ?_⟩
  · intro ctx input freshId now s r h pid hpid hne
    obtain ⟨u, hctx, _, _, _, hcheck, _, _, _⟩ := createScreenshot_ok h
    obtain ⟨p, hpok⟩ := hcheck pid hpid hne
    obtain ⟨hpm, h1, h2⟩ := getOwnedProject_ok hpok
    exact ⟨u, hctx, p, hpm, h1, h2⟩
  · intro ctx input now s r h pid hpid
    obtain ⟨_, u, hctx, ex, _, _, _, hcheck, _, _, _, _⟩ := updateScreenshot_ok h
    obtain ⟨p, hpok⟩ := hcheck pid hpid
    obtain ⟨hpm, h1, h2⟩ := getOwnedProject_ok hpok
    exact ⟨u, hctx, p, hpm, h1, h2⟩
  · intro s hs sh hsh pid hpid hne
    exact (reachable_inv hs).shotProjOwned sh hsh pid hpid hne

/-- Witness for C3 (amended): in the reachable demo store the attached
screenshot's non-empty `projectId` resolves to a project owned by the
same user. -/
theorem screenshot_project_ref_owned_witness :
    ∃ p ∈ demoStore.screenshotProjects, p.id = "proj-1" ∧ p.userId = demoShot1.userId :=
  screenshot_project_ref_owned.2.2 demoStore demoStore_reachable demoShot1 (by decide)
    "proj-1" rfl (by decide)

/-- When no project row matches both the id and the user, the owned
lookup throws the fixed `NOT_FOUND` error. -/
theorem getOwnedProject_notFound {s : Store} {pid uid : String}
    (h : ∀ p ∈ s.screenshotProjects, ¬(p.id = pid ∧ p.userId = uid)) :
    getOwnedProject s pid uid = .error projectNotFoundError := by
  unfold getOwnedProject
  have hnil : (s.screenshotProjects.filter (fun p => p.id == pid && p.userId == uid)) = [] := by
    refine List.filter_eq_nil_iff.mpr ?_
    intro p hp
    simp only [Bool.and_eq_true, beq_iff_eq]
    exact fun hc => h p hp hc
  rw [hnil]
  rfl

/-- When no screenshot row matches both the id and the user, the owned
lookup throws the fixed `NOT_FOUND` error. -/
theorem getOwnedScreenshot_notFound {s : Store} {sid uid : String}
    (h : ∀ sh ∈ s.screenshots, ¬(sh.id = sid ∧ sh.userId = uid)) :
    getOwnedScreenshot s sid uid = .error screenshotNotFoundError := by
  unfold getOwnedScreenshot
  have hnil : (s.screenshots.filter (fun sh => sh.id == sid && sh.userId == uid)) = [] := by
    refine List.filter_eq_nil_iff.mpr ?_
    intro sh hsh
    simp only [Bool.and_eq_true, beq_iff_eq]
    exact fun hc => h sh hsh hc
  rw [hnil]
  rfl

/-- C4: a lookup of a nonexistent id and a lookup of an id that exists
but belongs to a different user produce the very same error value (same
`NOT_FOUND` code, same message) — the two runs are indistinguishable —
and an action resolving a reference, such as `createScreenshot` with a
truthy unresolvable `projectId`, surfaces exactly that error. -/
theorem notfound_indistinguishable :
    (∀ s1 pid1 uid1 s2 pid2 uid2,
      (∀ p ∈ s1.screenshotProjects, ¬(p.id = pid1 ∧ p.userId = uid1)) →
      (∀ p ∈ s2.screenshotProjects, ¬(p.id = pid2 ∧ p.userId = uid2)) →
      getOwnedProject s1 pid1 uid1 = .error projectNotFoundError ∧
      getOwnedProject s1 pid1 uid1 = getOwnedProject s2 pid2 uid2) ∧
    (∀ s1 sid1 uid1 s2 sid2 uid2,
      (∀ sh ∈ s1.screenshots, ¬(sh.id = sid1 ∧ sh.userId = uid1)) →
      (∀ sh ∈ s2.screenshots, ¬(sh.id = sid2 ∧ sh.userId = uid2)) →
      getOwnedScreenshot s1 sid1 uid1 = .error screenshotNotFoundError ∧
      getOwnedScreenshot s1 sid1 uid1 = getOwnedScreenshot s2 sid2 uid2) ∧
    (∀ (u : User) input freshId now s pid,
      createScreenshotValid input = true →
      input.projectId = some pid → pid ≠ "" →
      (∀ p ∈ s.screenshotProjects, ¬(p.id = pid ∧ p.userId = u.id)) →
      createScreenshot (some u) input freshId now s = .error projectNotFoundError) := by
  refine ⟨?_, ?_, ?_⟩
  · intro s1 pid1 uid1 s2 pid2 uid2 h1 h2
    rw [getOwnedProject_notFound h1, getOwnedProject_notFound h2]
    exact ⟨rfl, rfl⟩
  · intro s1 sid1 uid1 s2 sid2 uid2 h1 h2
    rw [getOwnedScreenshot_notFound h1, getOwnedScreenshot_notFound h2]
    exact ⟨rfl, rfl⟩
  · intro u input freshId now s pid hv hpid hne hnomatch
    have herr := getOwnedProject_notFound hnomatch
    have ht : strTruthy input.projectId = true := by simp [hpid, strTruthy, hne]
    unfold createScreenshot
    rw [if_neg (by simp [hv])]
    simp only [requireUser]
    rw [if_pos ht, hpid]
    simp [herr, Except.map, hpid]

/-- Witness for C4: a foreign-owned existing project id and a
nonexistent id yield the identical `NOT_FOUND` error. -/
theorem notfound_indistinguishable_witness :
    getOwnedProject ⟨[⟨"proj-B", "u2", none, none, none, none, 0, 0⟩], [], []⟩ "proj-B" "u1"
      = .error projectNotFoundError ∧
    getOwnedProject ⟨[⟨"proj-B", "u2", none, none, none, none, 0, 0⟩], [], []⟩ "proj-B" "u1"
      = getOwnedProject Store.empty "missing" "u1" :=
  notfound_indistinguishable.1 ⟨[⟨"proj-B", "u2", none, none, none, none, 0, 0⟩], [], []⟩
    "proj-B" "u1" Store.empty "missing" "u1" (by decide) (by decide)

/-- C5: every successful `updateProject` / `updateScreenshot` returns
the target row with only the supplied fields changed: unsupplied
updatable fields and all immutable fields (id, `userId`, `createdAt`,
`originalImageUrl`) keep their previous values, and `updatedAt` is
refreshed to the current clock reading, hence is ≥ the previous value
whenever the clock has not gone backwards.  The `Nodup` hypotheses are
the primary-key constraints declared on the `id` columns. -/
theorem updates_partial_frame :
    (∀ (u : User) input now s (r : Option Project × Store),
      (s.screenshotProjects.map Project.id).Nodup →
      updateProject (some u) input now s = .ok r →
      ∃ prev ∈ s.screenshotProjects, prev.id = input.id ∧ prev.userId = u.id ∧
        ∃ proj, r.1 = some proj ∧
          proj.id = prev.id ∧
          proj.userId = prev.userId ∧
          proj.createdAt = prev.createdAt ∧
          proj.updatedAt = now ∧
          (prev.updatedAt ≤ now → prev.updatedAt ≤ proj.updatedAt) ∧
          (input.title = none → proj.title = prev.title) ∧
          (input.description = none → proj.description = prev.description) ∧
          (input.sourceDevice = none → proj.sourceDevice = prev.sourceDevice) ∧
          (input.sourceApp = none → proj.sourceApp = prev.sourceApp)) ∧
    (∀ (u : User) input now s (r : Option Screenshot × Store),
      (s.screenshots.map Screenshot.id).Nodup →
      updateScreenshot (some u) input now s = .ok r →
      ∃ prev ∈ s.screenshots, prev.id = input.id ∧ prev.userId = u.id ∧
        ∃ shot, r.1 = some shot ∧
          shot.id = prev.id ∧
          shot.userId = prev.userId ∧
          shot.originalImageUrl = prev.originalImageUrl ∧
          shot.createdAt = prev.createdAt ∧
          shot.updatedAt = now ∧
          (prev.updatedAt ≤ now → prev.updatedAt ≤ shot.updatedAt) ∧
          (input.projectId = none → shot.projectId = prev.projectId) ∧
          (input.editedImageUrl = none → shot.editedImageUrl = prev.editedImageUrl) ∧
          (input.width = none → shot.width = prev.width) ∧
          (input.height = none → shot.height = prev.height)) := by
  constructor
  · intro u input now s r hnd h
    obtain ⟨hvalid, u', hctx, ex, hex, hprojects, hret, hshots, hedits⟩ := updateProject_ok h
    injection hctx with hctx'
    subst hctx'
    obtain ⟨hexm, hexid, hexuid⟩ := getOwnedProject_ok hex
    have hfilter := filter_map_update_eq Project.id (applyProjectUpdate input now)
      (fun p => applyProjectUpdate_id input now p) input.id hnd hexm hexid
    rw [hprojects] at hret
    rw [hfilter] at hret
    simp only [List.head?_cons] at hret
    refine ⟨ex, hexm, hexid, hexuid, applyProjectUpdate input now ex, hret, ?_, ?_, ?_, ?_, ?_,
      ?_, ?_, ?_, ?_⟩
    · exact applyProjectUpdate_id input now ex
    · exact applyProjectUpdate_userId input now ex
    · rfl
    · rfl
    · intro hc; exact hc
    · intro hnone; simp [applyProjectUpdate, hnone]
    · intro hnone; simp [applyProjectUpdate, hnone]
    · intro hnone; simp [applyProjectUpdate, hnone]
    · intro hnone; simp [applyProjectUpdate, hnone]
  · intro u input now s r hnd h
    obtain ⟨hvalid, u', hctx, ex, hexm, hexid, hexuid, hcheck, hshots, hret, hprojects, hedits⟩ :=
      updateScreenshot_ok h
    injection hctx with hctx'
    subst hctx'
    have hfilter := filter_map_update_eq Screenshot.id (applyScreenshotUpdate input now)
      (fun sh => applyScreenshotUpdate_id input now sh) input.id hnd hexm hexid
    rw [hshots] at hret
    rw [hfilter] at hret
    simp only [List.head?_cons] at hret
    refine ⟨ex, hexm, hexid, hexuid, applyScreenshotUpdate input now ex, hret, ?_, ?_, ?_, ?_,
      ?_, ?_, ?_, ?_, ?_, ?_⟩
    · exact applyScreenshotUpdate_id input now ex
    · exact applyScreenshotUpdate_userId input now ex
    · rfl
    · rfl
    · rfl
    · intro hc; exact hc
    · intro hnone; simp [applyScreenshotUpdate, hnone]
    · intro hnone; simp [applyScreenshotUpdate, hnone]
    · intro hnone; simp [applyScreenshotUpdate, hnone]
    · intro hnone; simp [applyScreenshotUpdate, hnone]

/-- The project of the demo scenario after `updateProject` sets only
`sourceApp` at time 5. -/
def demoProject1Updated : Project :=
  ⟨"proj-1", "u1", some "Bug report", none, none, some "Chrome", 0, 5⟩

/-- Witness for C5: updating only `sourceApp` of the demo project keeps
title, description, owner and `createdAt`, and refreshes `updatedAt`. -/
theorem updates_partial_frame_witness :
    ∃ prev ∈ demoStore.screenshotProjects,
      prev.id = (⟨"proj-1", none, none, none, some "Chrome"⟩ : UpdateProjectInput).id ∧
      prev.userId = (⟨"u1"⟩ : User).id ∧
      ∃ proj, (some demoProject1Updated : Option Project) = some proj ∧
        proj.id = prev.id ∧
        proj.userId = prev.userId ∧
        proj.createdAt = prev.createdAt ∧
        proj.updatedAt = 5 ∧
        (prev.updatedAt ≤ 5 → prev.updatedAt ≤ proj.updatedAt) ∧
        ((⟨"proj-1", none, none, none, some "Chrome"⟩ : UpdateProjectInput).title = none →
          proj.title = prev.title) ∧
        ((⟨"proj-1", none, none, none, some "Chrome"⟩ : UpdateProjectInput).description = none →
          proj.description = prev.description) ∧
        ((⟨"proj-1", none, none, none, some "Chrome"⟩ : UpdateProjectInput).sourceDevice = none →
          proj.sourceDevice = prev.sourceDevice) ∧
        ((⟨"proj-1", none, none, none, some "Chrome"⟩ : UpdateProjectInput).sourceApp = none →
          proj.sourceApp = prev.sourceApp) :=
  updates_partial_frame.1 ⟨"u1"⟩ ⟨"proj-1", none, none, none, some "Chrome"⟩ 5 demoStore
    (some demoProject1Updated,
      ⟨[demoProject1Updated, demoProject2], [demoShot1], [demoEdit1]⟩)
    (by decide) rfl

/-- C6: an update input supplying the id but none of the updatable
fields is rejected by the zod refinement with a validation error — for
every caller context and every store, so before any authentication
outcome or store access, and with the store left untouched (the error
carries no successor store). -/
theorem empty_update_rejected :
    (∀ ctx (input : UpdateProjectInput) now s,
      input.title = none → input.description = none →
      input.sourceDevice = none → input.sourceApp = none →
      updateProject ctx input now s = .error validationFailedError) ∧
    (∀ ctx (input : UpdateScreenshotInput) now s,
      input.projectId = none → input.editedImageUrl = none →
      input.width = none → input.height = none →
      updateScreenshot ctx input now s = .error validationFailedError) := by
  constructor
  · intro ctx input now s h1 h2 h3 h4
    have hv : updateProjectValid input = false := by
      simp [updateProjectValid, h1, h2, h3, h4]
    simp [updateProject, hv]
  · intro ctx input now s h1 h2 h3 h4
    have hv : updateScreenshotValid input = false := by
      simp [updateScreenshotValid, h1, h2, h3, h4]
    simp [updateScreenshot, hv]

/-- Witness for C6: even an authenticated owner updating an existing
project with zero updatable fields gets the validation error. -/
theorem empty_update_rejected_witness :
    updateProject (some ⟨"u1"⟩) ⟨"proj-1", none, none, none, none⟩ 9 demoStore
      = .error validationFailedError :=
  empty_update_rejected.1 (some ⟨"u1"⟩) ⟨"proj-1", none, none, none, none⟩ 9 demoStore
    rfl rfl rfl rfl

/-- Every single call leaves the edits table an extension of itself:
no edit row is ever rewritten or removed. -/
theorem stepCall_edits_extend (c : ActionCall) (s : Store) :
    ∃ l, (stepCall c s).screenshotEdits = s.screenshotEdits ++ l := by
  cases c with
  | callCreateProject ctx input freshId now =>
    simp only [stepCall]
    cases h : createProject ctx input freshId now s with
    | error e => exact ⟨[], by simp [resultStore]⟩
    | ok r =>
      obtain ⟨_, _, _, _, _, _, hedits⟩ := createProject_ok h
      exact ⟨[], by simp [resultStore, hedits]⟩
  | callUpdateProject ctx input now =>
    simp only [stepCall]
    cases h : updateProject ctx input now s with
    | error e => exact ⟨[], by simp [resultStore]⟩
    | ok r =>
      obtain ⟨_, _, _, _, _, _, _, _, hedits⟩ := updateProject_ok h
      exact ⟨[], by simp [resultStore, hedits]⟩
  | callListProjects ctx =>
    simp only [stepCall]
    cases h : listProjects ctx s with
    | error e => exact ⟨[], by simp [resultStore]⟩
    | ok r => exact ⟨[], by simp [resultStore, listProjects_store h]⟩
  | callCreateScreenshot ctx input freshId now =>
    simp only [stepCall]
    cases h : createScreenshot ctx input freshId now s with
    | error e => exact ⟨[], by simp [resultStore]⟩
    | ok r =>
      obtain ⟨_, _, _, _, _, _, _, _, hedits⟩ := createScreenshot_ok h
      exact ⟨[], by simp [resultStore, hedits]⟩
  | callUpdateScreenshot ctx input now =>
    simp only [stepCall]
    cases h : updateScreenshot ctx input now s with
    | error e => exact ⟨[], by simp [resultStore]⟩
    | ok r =>
      obtain ⟨_, _, _, _, _, _, _, _, _, _, _, hedits⟩ := updateScreenshot_ok h
      exact ⟨[], by simp [resultStore, hedits]⟩
  | callListScreenshots ctx input =>
    simp only [stepCall]
    cases h : listScreenshots ctx input s with
    | error e => exact ⟨[], by simp [resultStore]⟩
    | ok r => exact ⟨[], by simp [resultStore, listScreenshots_store h]⟩
  | callCreateScreenshotEdit ctx input freshId now =>
    simp only [stepCall]
    cases h : createScreenshotEdit ctx input freshId now s with
    | error e => exact ⟨[], by simp [resultStore]⟩
    | ok r =>
      obtain ⟨_, _, _, _, _, _, _, _, _, hedits⟩ := createScreenshotEdit_ok h
      exact ⟨r.1 :: [], by simp [resultStore, hedits]⟩
  | callListScreenshotEdits ctx input =>
    simp only [stepCall]
    cases h : listScreenshotEdits ctx input s with
    | error e => exact ⟨[], by simp [resultStore]⟩
    | ok r => exact ⟨[], by simp [resultStore, listScreenshotEdits_store h]⟩

/-- C7: across any number of action calls the `ScreenshotEdits` table
only grows at the end: every edit row present earlier is present,
bitwise unchanged (`userId` and `screenshotId` included), in every
later reachable state — a strictly append-only log. -/
theorem edits_append_only {s t : Store} (h : Steps s t) :
    (∃ l, t.screenshotEdits = s.screenshotEdits ++ l) ∧
    (∀ e ∈ s.screenshotEdits, e ∈ t.screenshotEdits) := by
  have hext : ∃ l, t.screenshotEdits = s.screenshotEdits ++ l := by
    induction h with
    | refl => exact ⟨[], by simp⟩
    | tail c hst hf ih =>
      obtain ⟨l, hl⟩ := ih
      obtain ⟨l', hl'⟩ := stepCall_edits_extend c _
      exact ⟨l ++ l', by rw [hl', hl, List.append_assoc]⟩
  refine ⟨hext, ?_⟩
  obtain ⟨l, hl⟩ := hext
  intro e he
  rw [hl]
  exact List.mem_append_left _ he

/-- Witness for C7: the demo run only appended to the initially empty
edits table. -/
theorem edits_append_only_witness :
    ∃ l, demoStore.screenshotEdits = Store.empty.screenshotEdits ++ l :=
  (edits_append_only demoStore_reachable).1

/-- The screenshot of the C8 counterexample: unattached, owned by `u1`. -/
def c8Shot : Screenshot := ⟨"shot-c8", none, "u1", "img://1", none, none, none, 0, 0⟩

/-- The reachable store of the C8 counterexample. -/
def c8Store : Store := ⟨[], [c8Shot], []⟩

/-- Counterexample to C8 as stated: `listScreenshots` with the supplied
`projectId = ""` does not fail `NotFound` although `""` resolves to no
owned project — the falsy empty string skips both the ownership check
and the filter — and the returned items are not restricted to that
`projectId`. -/
theorem list_screenshots_empty_projectId_cex :
    listScreenshots (some ⟨"u1"⟩) ⟨some ""⟩ c8Store = .ok (⟨[c8Shot], 1⟩, c8Store) ∧
    getOwnedProject c8Store "" "u1" = .error projectNotFoundError ∧
    c8Shot.projectId ≠ some "" ∧
    Reachable c8Store := by
  refine ⟨rfl, rfl, by decide, ?_⟩
  exact Steps.tail
    (.callCreateScreenshot (some ⟨"u1"⟩) ⟨none, "img://1", none, none, none⟩ "shot-c8" 0)
    (Steps.refl _) (by decide)

/-- C8 amended: for an authenticated `listScreenshots` call, a supplied
non-empty `projectId` that does not resolve to a caller-owned project
fails with the `NOT_FOUND` error; on success the items are exactly the
caller's screenshots, restricted to the supplied `projectId` when it is
non-empty (an empty-string `projectId` behaves as if absent), the
resolution succeeded, and `total` is the number of items. -/
theorem list_screenshots_owned_filter :
    (∀ (u : User) input s pid,
      input.projectId = some pid → pid ≠ "" →
      (∀ p ∈ s.screenshotProjects, ¬(p.id = pid ∧ p.userId = u.id)) →
      listScreenshots (some u) input s = .error projectNotFoundError) ∧
    (∀ (u : User) input s (r : ListResult Screenshot × Store),
      listScreenshots (some u) input s = .ok r →
      r.1.total = r.1.items.length ∧
      (∀ sh, sh ∈ r.1.items ↔ (sh ∈ s.screenshots ∧ sh.userId = u.id ∧
        (∀ pid, input.projectId = some pid → pid ≠ "" → sh.projectId = some pid))) ∧
      (∀ pid, input.projectId = some pid → pid ≠ "" →
        ∃ p ∈ s.screenshotProjects, p.id = pid ∧ p.userId = u.id)) := by
  constructor
  · intro u input s pid hpid hne hnomatch
    have herr := getOwnedProject_notFound hnomatch
    have ht : strTruthy input.projectId = true := by simp [hpid, strTruthy, hne]
    unfold listScreenshots
    simp only [requireUser]
    rw [if_pos ht, hpid]
    simp [herr, Except.map, hpid]
  · intro u input s r h
    obtain ⟨u', hu, hres, hitems, htotal, _⟩ := listScreenshots_ok h
    injection hu with hu'
    subst hu'
    refine ⟨htotal, ?_, ?_⟩
    · intro sh
      rw [hitems, List.mem_filter]
      constructor
      · rintro ⟨hmem, hpred⟩
        simp only [Bool.and_eq_true, beq_iff_eq] at hpred
        refine ⟨hmem, hpred.1, ?_⟩
        intro pid hpid hne
        have ht : strTruthy input.projectId = true := by simp [hpid, strTruthy, hne]
        have h2 := hpred.2
        rw [if_pos ht] at h2
        have h3 : sh.projectId = input.projectId := beq_iff_eq.mp h2
        rw [h3, hpid]
      · rintro ⟨hmem, huid, hrestrict⟩
        refine ⟨hmem, ?_⟩
        simp only [Bool.and_eq_true, beq_iff_eq]
        refine ⟨huid, ?_⟩
        cases hip : input.projectId with
        | none => simp [strTruthy]
        | some pid0 =>
          by_cases hne : pid0 = ""
          · subst hne; simp [strTruthy]
          · have ht : strTruthy (some pid0) = true := by simp [strTruthy, hne]
            rw [if_pos ht]
            have hp := hrestrict pid0 hip hne
            simp [hp]
    · intro pid hpid hne
      have ht : strTruthy input.projectId = true := by simp [hpid, strTruthy, hne]
      obtain ⟨p, hpok⟩ := hres ht
      obtain ⟨hpm, h1, h2⟩ := getOwnedProject_ok hpok
      refine ⟨p, hpm, ?_, h2⟩
      rw [h1, hpid]
      rfl

/-- Witness for C8 (amended): the demo call `listScreenshots` with the
owned `proj-1` succeeds, and the resolution fact it implies holds. -/
theorem list_screenshots_owned_filter_witness :
    ∃ p ∈ demoStore.screenshotProjects, p.id = "proj-1" ∧ p.userId = (⟨"u1"⟩ : User).id :=
  (list_screenshots_owned_filter.2 ⟨"u1"⟩ ⟨some "proj-1"⟩ demoStore
    (⟨[demoShot1], 1⟩, demoStore) rfl).2.2 "proj-1" rfl (by decide)

/-- Counterexample to C9 as stated: an unauthenticated `updateProject`
call whose input fails the zod refinement is rejected by input
validation, not with `UNAUTHORIZED` — `defineAction` parses the input
before the handler (and hence before `requireUser`) runs. -/
theorem unauth_invalid_input_cex :
    updateProject none ⟨"x", none, none, none, none⟩ 0 Store.empty
      = .error validationFailedError ∧
    validationFailedError.code ≠ ErrorCode.UNAUTHORIZED :=
  ⟨rfl, by decide⟩

/-- C9 amended: every action invoked with no authenticated user and an
input that passes the action's declared validation fails with the
`UNAUTHORIZED` error, identically for every store — the auth check
precedes every ownership check and store access.  (Inputs failing
validation are rejected by the framework's parse step before the
handler, so the auth check does not run for them.) -/
theorem unauthenticated_rejected :
    (∀ input freshId now s, createProject none input freshId now s = .error unauthorizedError) ∧
    (∀ input now s, updateProjectValid input = true →
      updateProject none input now s = .error unauthorizedError) ∧
    (∀ s, listProjects none s = .error unauthorizedError) ∧
    (∀ input freshId now s, createScreenshotValid input = true →
      createScreenshot none input freshId now s = .error unauthorizedError) ∧
    (∀ input now s, updateScreenshotValid input = true →
      updateScreenshot none input now s = .error unauthorizedError) ∧
    (∀ input s, listScreenshots none input s = .error unauthorizedError) ∧
    (∀ input freshId now s, createScreenshotEditValid input = true →
      createScreenshotEdit none input freshId now s = .error unauthorizedError) ∧
    (∀ input s, listScreenshotEditsValid input = true →
      listScreenshotEdits none input s = .error unauthorizedError) := by
  refine ⟨?_, ?_, ?_, ?_, ?_, ?_, ?_, ?_⟩
  · intro input freshId now s; simp [createProject, requireUser]
  · intro input now s hv; simp [updateProject, hv, requireUser]
  · intro s; simp [listProjects, requireUser]
  · intro input freshId now s hv; simp [createScreenshot, hv, requireUser]
  · intro input now s hv; simp [updateScreenshot, hv, requireUser]
  · intro input s; simp [listScreenshots, requireUser]
  · intro input freshId now s hv; simp [createScreenshotEdit, hv, requireUser]
  · intro input s hv; simp [listScreenshotEdits, hv, requireUser]

/-- Witness for C9 (amended): a valid-but-unauthenticated update on the
demo store gets `UNAUTHORIZED`. -/
theorem unauthenticated_rejected_witness :
    updateProject none ⟨"proj-1", some "t", none, none, none⟩ 0 demoStore
      = .error unauthorizedError :=
  unauthenticated_rejected.2.1 ⟨"proj-1", some "t", none, none, none⟩ 0 demoStore rfl

/-- C10: in every reachable state, every `ScreenshotEdit` row references
an existing screenshot whose `userId` equals the edit's `userId`; and
the final query of `listScreenshotEdits` filters by `screenshotId`
alone (no `userId` condition), so this invariant is what keeps its
output owner-scoped. -/
theorem edits_reference_owned_screenshot {s : Store} (hs : Reachable s) :
    (∀ e ∈ s.screenshotEdits, ∃ sh ∈ s.screenshots,
      sh.id = e.screenshotId ∧ sh.userId = e.userId) ∧
    (∀ ctx input (r : ListResult ScreenshotEdit × Store),
      listScreenshotEdits ctx input s = .ok r →
      r.1.items = s.screenshotEdits.filter (fun e => e.screenshotId == input.screenshotId)) := by
  refine ⟨(reachable_inv hs).editShotOwned, ?_⟩
  intro ctx input r h
  obtain ⟨u, _, sh, _, hitems, _, _⟩ := listScreenshotEdits_ok h
  exact hitems

/-- Witness for C10: the demo edit references the demo screenshot, owned
by the same user. -/
theorem edits_reference_owned_screenshot_witness :
    ∃ sh ∈ demoStore.screenshots,
      sh.id = demoEdit1.screenshotId ∧ sh.userId = demoEdit1.userId :=
  (edits_reference_owned_screenshot demoStore_reachable).1 demoEdit1 (by decide)

end ScreenshotEditor
